import Mathlib

/-!
Verification of the real-time collaboration and notification layer of the
manufacturing backend: a shallow embedding of

  * src/manufacturing_api/src/core/security.py   (token claim shape),
  * src/manufacturing_api/src/api/main.py        (_validate_ws_and_get_user,
    ws_dashboard, ws_scheduler),
  * src/manufacturing_api/src/services/realtime.py (BroadcastManager),
  * src/manufacturing_api/src/db/session.py      (set_current_tenant, tenant_context),
  * the row-level-security policies from src/manufacturing_api/src/db/migrations.

Connections are opaque handles (identity comparison in the source becomes
equality of handles); the per-topic asyncio locks serialize all mutations of a
topic, so the state reached by any interleaving of the lock-protected critical
sections is the state of some sequential order of those sections — the model
applies the critical sections as atomic state transformers.
-/

namespace MfgRealtime

/-- Claim set of a decoded JWT as read by the WebSocket validator:
only the keys "tenant_id" and "sub" are consulted, each possibly absent
(Python dict.get returning None). -/
structure Claims where
  tenant_id : Option String
  sub : Option String
deriving DecidableEq

/-- Python str() applied to an optional string value: str(None) is the four
character string "None". -/
def pyStr : Option String → String
  | none => "None"
  | some s => s

/-- Python truthiness of an optional string: None and the empty string are
falsy, every other string is truthy. -/
def pyTruthy : Option String → Bool
  | none => false
  | some s => s ≠ ""

/-- The parts of the inbound WebSocket request the handlers read: the token
and board query parameters and the X-Tenant-ID header, each possibly absent. -/
structure WsRequest where
  token : Option String
  tenantHeader : Option String
  board : Option String
deriving DecidableEq

/-- Result of the connection validation: a close code (the handler returns
without subscribing) or the validated (tenant_id, user_id) pair. -/
inductive AuthResult
  | reject (code : Nat)
  | accept (tenant_id : String) (user_id : String)
deriving DecidableEq

/-- Embedding of _validate_ws_and_get_user (src/api/main.py).  The externally
owned token decoding operation (jose jwt.decode inside decode_token) is a
parameter; it returns none when decoding raises (undecodable or expired
token).  The source checks, in order: falsy token or falsy header (4401),
decode failure (4401), str(claims.get("tenant_id")) differing from the
declared header (4403), falsy subject claim (4401); otherwise it returns
(str(tenant_id), str(user_id)). -/
def validate_ws_and_get_user (decode : String → Option Claims) (r : WsRequest) :
    AuthResult :=
  match r.token, r.tenantHeader with
  | some tok, some hdr =>
    if tok = "" ∨ hdr = "" then .reject 4401
    else
      match decode tok with
      | none => .reject 4401
      | some claims =>
        if pyStr claims.tenant_id ≠ hdr then .reject 4403
        else if ¬ pyTruthy claims.sub then .reject 4401
        else .accept hdr (pyStr claims.sub)
  | _, _ => .reject 4401

/-- BroadcastManager.dashboard_topic: the topic string for a tenant's
dashboard feed. -/
def dashboard_topic (tenant_id : String) : String :=
  "dashboard:" ++ tenant_id

/-- BroadcastManager.scheduler_topic: the topic string for a tenant's
scheduler feed, with the optional board appended when truthy. -/
def scheduler_topic (tenant_id : String) (board : Option String) : String :=
  if pyTruthy board then "scheduler:" ++ tenant_id ++ ":" ++ board.getD ""
  else "scheduler:" ++ tenant_id

/-- A WebSocket connection handle.  The source compares connections by
identity (set membership, the exclude check uses the is operator); handles are
embedded as natural numbers with equality. -/
abbrev Conn := Nat

/-- BroadcastManager._topics: the dict from topic name to subscriber set,
embedded as an insertion-ordered association list whose values are
duplicate-free lists. -/
abbrev Topics := List (String × List Conn)

/-- Lookup of a topic's subscriber set (empty when the topic was never
created). -/
def subsOf : Topics → String → List Conn
  | [], _ => []
  | (k, s) :: rest, topic => if k = topic then s else subsOf rest topic

/-- Dict membership test for a topic key. -/
def hasTopic : Topics → String → Bool
  | [], _ => false
  | (k, _) :: rest, topic => k = topic || hasTopic rest topic

/-- Dict assignment self._topics[topic] = v (replaces the existing entry or
appends a new one). -/
def setSubs : Topics → String → List Conn → Topics
  | [], topic, v => [(topic, v)]
  | (k, s) :: rest, topic, v =>
    if k = topic then (k, v) :: rest else (k, s) :: setSubs rest topic v

/-- BroadcastManager._ensure_topic: create the topic with an empty subscriber
set if it does not exist (done under the global lock in the source). -/
def ensure_topic (ts : Topics) (topic : String) : Topics :=
  if hasTopic ts topic then ts else ts ++ [(topic, [])]

/-- Python set.add on the duplicate-free subscriber list. -/
def addConn (s : List Conn) (c : Conn) : List Conn :=
  if c ∈ s then s else s ++ [c]

/-- BroadcastManager.connect: ensure the topic exists, then add the websocket
to its subscriber set (under the topic's lock). -/
def connect (ts : Topics) (topic : String) (c : Conn) : Topics :=
  let ts1 := ensure_topic ts topic
  setSubs ts1 topic (addConn (subsOf ts1 topic) c)

/-- BroadcastManager.disconnect: return unchanged when the topic was never
created, otherwise set.discard the websocket under the topic's lock. -/
def disconnect (ts : Topics) (topic : String) (c : Conn) : Topics :=
  if hasTopic ts topic then
    setSubs ts topic ((subsOf ts topic).filter (fun x => decide (x ≠ c)))
  else ts

/-- Transport-level facts consulted during one broadcast pass: whether a
subscriber's application or client state reports DISCONNECTED, and whether
awaiting send_json on it raises. -/
structure NetEnv where
  isDisconnected : Conn → Bool
  sendRaises : Conn → Bool

/-- The fan-out loop of BroadcastManager.broadcast over the subscriber
snapshot, in iteration order: skip the excluded connection; a subscriber whose
liveness check reports disconnected, or whose send raises, goes to to_drop;
every other subscriber is delivered the message.  Returns (delivered,
to_drop). -/
def broadcastPass (env : NetEnv) (exclude : Option Conn) :
    List Conn → List Conn × List Conn
  | [] => ([], [])
  | ws :: rest =>
    let p := broadcastPass env exclude rest
    if exclude = some ws then p
    else if env.isDisconnected ws then (p.1, ws :: p.2)
    else if env.sendRaises ws then (p.1, ws :: p.2)
    else (ws :: p.1, p.2)

/-- BroadcastManager.broadcast: under the topic's lock, fan the message out to
the current subscriber snapshot, then discard every collected dead or failing
subscriber before the lock is released.  Returns the updated topics map and
the (connection, message) deliveries made by this call. -/
def broadcast {μ : Type} (env : NetEnv) (ts : Topics) (topic : String)
    (msg : μ) (exclude : Option Conn) : Topics × List (Conn × μ) :=
  let ts1 := ensure_topic ts topic
  let subs := subsOf ts1 topic
  let p := broadcastPass env exclude subs
  (setSubs ts1 topic (subs.filter (fun c => decide (c ∉ p.2))),
    p.1.map (fun c => (c, msg)))

/-- A JSON value as read from data.get("type"): a string, or some value of
any other shape. -/
inductive PyVal
  | str (s : String)
  | other
deriving DecidableEq

/-- A JSON object, the payload shape of the message envelope. -/
abbrev PyDict := List (String × String)

/-- The fields ws_scheduler reads from a successfully parsed message:
data.get("type") and data.get("payload"). -/
structure SchedData where
  type : Option PyVal
  payload : Option PyDict
deriving DecidableEq

/-- Python data.get("payload") or \x7b\x7d for an object-valued payload: both an
absent payload and an empty object are falsy and default to the empty
object. -/
def payloadOrEmpty : Option PyDict → PyDict
  | none => []
  | some p => if p = [] then [] else p

/-- WsEnvelope (src/schemas/realtime.py) restricted to the fields the
properties are about; the at field is a wall-clock timestamp and is not
modelled. -/
structure WsEnvelope where
  type : String
  payload : PyDict
  user_id : Option String := none
  channel : Option String := none
deriving DecidableEq

/-- A frame sent directly to one client: plain text or a JSON envelope. -/
inductive OutMsg
  | text (s : String)
  | jsonMsg (e : WsEnvelope)
deriving DecidableEq

/-- The observable effects of handling one received client message: direct
replies to the sender, an optional envelope broadcast to the topic excluding
the sender, and database writes (the receive loops perform none). -/
structure StepEffects where
  sends : List OutMsg
  bcast : Option WsEnvelope
  dbWrites : List PyDict
deriving DecidableEq

/-- Body of the ws_scheduler receive loop on a successfully parsed message:
reply pong when type equals "ping"; silently drop a message whose type is
absent or not a string; otherwise rebroadcast a WsEnvelope with the type
namespaced by "scheduler." and the board as channel, excluding the sender,
with no persistence. -/
def schedulerHandleMsg (board : Option String) (d : SchedData) : StepEffects :=
  let payload := payloadOrEmpty d.payload
  match d.type with
  | some (.str s) =>
    if s = "ping" then ⟨[.text "pong"], none, []⟩
    else ⟨[], some ⟨"scheduler." ++ s, payload, none, board⟩, []⟩
  | some .other => ⟨[], none, []⟩
  | none => ⟨[], none, []⟩

/-- Python str.lower, character-wise (the frames compared against the ASCII
word ping make the ASCII lowering the relevant fragment). -/
def pyLower (s : String) : String :=
  String.mk (s.data.map Char.toLower)

/-- Body of the ws_dashboard receive loop on a received text frame: reply
pong when the frame is nonempty and case-insensitively equals "ping"; every
other frame is ignored. -/
def dashboardHandleText (msg : String) : StepEffects :=
  if msg ≠ "" ∧ pyLower msg = "ping" then ⟨[.text "pong"], none, []⟩
  else ⟨[], none, []⟩

/-- Outcome of awaiting websocket.receive_json(): a parsed message, a raised
exception because the received frame was not a valid JSON document, or a
WebSocketDisconnect. -/
inductive RecvResult
  | msg (d : SchedData)
  | parseErr
  | closed
deriving DecidableEq

/-- Where one iteration of the ws_scheduler receive loop leaves the
connection: still looping with the given effects, or terminated through one of
the two surrounding exception handlers. -/
inductive LoopStep
  | continuing (eff : StepEffects)
  | endError
  | endDisconnect
deriving DecidableEq

/-- One iteration of the ws_scheduler receive loop including its exception
handlers: a raised parse error is caught by the generic except clause
(disconnect from the topic, close the transport); WebSocketDisconnect is
caught by its own clause (disconnect from the topic). -/
def schedulerLoopStep (board : Option String) : RecvResult → LoopStep
  | .msg d => .continuing (schedulerHandleMsg board d)
  | .parseErr => .endError
  | .closed => .endDisconnect

/-- Effect of the loop outcome on the topic map: while the loop continues the
membership is untouched; both terminal exception handlers remove the
connection from its topic. -/
def schedulerOnEnd (ts : Topics) (topic : String) (c : Conn) :
    LoopStep → Topics
  | .continuing _ => ts
  | .endError => disconnect ts topic c
  | .endDisconnect => disconnect ts topic c

/-- The topic ws_dashboard subscribes an accepted connection to; none when
the validator rejected (the handler returns before any connect call). -/
def dashboardJoinTopic (decode : String → Option Claims) (r : WsRequest) :
    Option String :=
  match validate_ws_and_get_user decode r with
  | .accept t _ => some (dashboard_topic t)
  | .reject _ => none

/-- The topic ws_scheduler subscribes an accepted connection to; none when
the validator rejected. -/
def schedulerJoinTopic (decode : String → Option Claims) (r : WsRequest) :
    Option String :=
  match validate_ws_and_get_user decode r with
  | .accept t _ => some (scheduler_topic t r.board)
  | .reject _ => none

/-- Per-session database state relevant to tenant scoping: the current value
of the app.tenant_id GUC. -/
structure Session where
  tenant_guc : String
deriving DecidableEq

/-- set_current_tenant (src/db/session.py): SELECT set_config('app.tenant_id',
str(tenant_id), false). -/
def set_current_tenant (s : Session) (tenant_id : String) : Session :=
  { s with tenant_guc := tenant_id }

/-- tenant_context (src/db/session.py): set the tenant GUC, run the enclosed
work — which may update session state and either return a value or raise,
embedded as a state-passing function into Except — and in the finally block
reset the GUC to the empty string on every exit path. -/
def tenant_context {E A : Type} (tenant_id : String)
    (body : Session → Session × Except E A) (s : Session) :
    Session × Except E A :=
  let s1 := set_current_tenant s tenant_id
  let r := body s1
  ({ r.1 with tenant_guc := "" }, r.2)

/-- The row-level-security policy attached to every tenant-owned table by the
migrations: USING (tenant_id = current_setting('app.tenant_id', true)::uuid).
A row is visible exactly when the GUC's text equals the row's tenant id. -/
def policyAllows (guc : String) (row_tenant : String) : Bool :=
  guc = row_tenant

/-! Lemmas about the topics map. -/

theorem subsOf_of_hasTopic_eq_false {ts : Topics} {topic : String}
    (h : hasTopic ts topic = false) : subsOf ts topic = [] := by
  induction ts with
  | nil => rfl
  | cons e rest ih =>
    obtain ⟨k, s⟩ := e
    simp only [hasTopic, Bool.or_eq_false_iff, decide_eq_false_iff_not] at h
    simp [subsOf, h.1, ih h.2]

theorem subsOf_append (ts1 ts2 : Topics) (topic : String) :
    subsOf (ts1 ++ ts2) topic =
      if hasTopic ts1 topic then subsOf ts1 topic else subsOf ts2 topic := by
  induction ts1 with
  | nil => simp [subsOf, hasTopic]
  | cons e rest ih =>
    obtain ⟨k, s⟩ := e
    by_cases hk : k = topic
    · simp [subsOf, hasTopic, hk]
    · simp [subsOf, hasTopic, hk, ih]

theorem subsOf_ensure_topic (ts : Topics) (topic topic2 : String) :
    subsOf (ensure_topic ts topic) topic2 = subsOf ts topic2 := by
  unfold ensure_topic
  by_cases h : hasTopic ts topic = true
  · simp [h]
  · rw [if_neg (by simp [h]), subsOf_append]
    by_cases h2 : hasTopic ts topic2 = true
    · simp [h2]
    · rw [if_neg (by simp [h2])]
      have hts : subsOf ts topic2 = [] :=
        subsOf_of_hasTopic_eq_false (by simpa using h2)
      rw [hts]
      by_cases h3 : topic = topic2 <;> simp [subsOf, h3]

theorem subsOf_setSubs_self (ts : Topics) (topic : String) (v : List Conn) :
    subsOf (setSubs ts topic v) topic = v := by
  induction ts with
  | nil => simp [setSubs, subsOf]
  | cons e rest ih =>
    obtain ⟨k, s⟩ := e
    by_cases hk : k = topic
    · simp [setSubs, subsOf, hk]
    · simp [setSubs, subsOf, hk, ih]

theorem subsOf_setSubs_ne (ts : Topics) (topic topic2 : String) (v : List Conn)
    (h : topic2 ≠ topic) :
    subsOf (setSubs ts topic v) topic2 = subsOf ts topic2 := by
  induction ts with
  | nil =>
    have h2 : topic ≠ topic2 := fun hh => h hh.symm
    simp [setSubs, subsOf, h2]
  | cons e rest ih =>
    obtain ⟨k, s⟩ := e
    by_cases hk : k = topic
    · have h2 : topic ≠ topic2 := fun hh => h hh.symm
      simp [setSubs, subsOf, hk, h2]
    · simp [setSubs, subsOf, hk, ih]

theorem setSubs_subsOf_self {ts : Topics} {topic : String}
    (h : hasTopic ts topic = true) : setSubs ts topic (subsOf ts topic) = ts := by
  induction ts with
  | nil => simp [hasTopic] at h
  | cons e rest ih =>
    obtain ⟨k, s⟩ := e
    by_cases hk : k = topic
    · simp [setSubs, subsOf, hk]
    · simp only [hasTopic, Bool.or_eq_true, decide_eq_true_eq] at h
      rcases h with h | h
      · exact absurd h hk
      · simp [setSubs, subsOf, hk, ih h]

theorem mem_addConn {s : List Conn} {c x : Conn} :
    x ∈ addConn s c ↔ x ∈ s ∨ x = c := by
  unfold addConn
  by_cases h : c ∈ s
  · simp only [if_pos h]
    constructor
    · exact fun hx => Or.inl hx
    · rintro (hx | rfl)
      exact hx
      exact h
  · simp [h]

theorem addConn_eq_append {s : List Conn} {c : Conn} (h : c ∉ s) :
    addConn s c = s ++ [c] := by
  simp [addConn, h]

theorem subsOf_connect_self (ts : Topics) (topic : String) (c : Conn) :
    subsOf (connect ts topic c) topic = addConn (subsOf ts topic) c := by
  unfold connect
  rw [subsOf_setSubs_self, subsOf_ensure_topic]

theorem subsOf_connect_ne (ts : Topics) (topic topic2 : String) (c : Conn)
    (h : topic2 ≠ topic) :
    subsOf (connect ts topic c) topic2 = subsOf ts topic2 := by
  unfold connect
  rw [subsOf_setSubs_ne _ _ _ _ h, subsOf_ensure_topic]

theorem subsOf_disconnect_self (ts : Topics) (topic : String) (c : Conn) :
    subsOf (disconnect ts topic c) topic =
      (subsOf ts topic).filter (fun x => decide (x ≠ c)) := by
  unfold disconnect
  by_cases h : hasTopic ts topic = true
  · rw [if_pos h, subsOf_setSubs_self]
  · rw [if_neg (by simp [h]), subsOf_of_hasTopic_eq_false (by simpa using h)]
    rfl

theorem subsOf_disconnect_ne (ts : Topics) (topic topic2 : String) (c : Conn)
    (h : topic2 ≠ topic) :
    subsOf (disconnect ts topic c) topic2 = subsOf ts topic2 := by
  unfold disconnect
  by_cases hh : hasTopic ts topic = true
  · rw [if_pos hh, subsOf_setSubs_ne _ _ _ _ h]
  · rw [if_neg (by simp [hh])]

theorem disconnect_eq_self {ts : Topics} {topic : String} {c : Conn}
    (h : c ∉ subsOf ts topic) : disconnect ts topic c = ts := by
  unfold disconnect
  by_cases hh : hasTopic ts topic = true
  · rw [if_pos hh]
    have hf : (subsOf ts topic).filter (fun x => decide (x ≠ c)) = subsOf ts topic := by
      apply List.filter_eq_self.mpr
      intro x hx
      simp only [decide_eq_true_eq]
      rintro rfl
      exact h hx
    rw [hf, setSubs_subsOf_self hh]
  · rw [if_neg (by simp [hh])]

/-! Lemmas about the broadcast fan-out. -/

theorem broadcastPass_fst_eq (env : NetEnv) (ex : Option Conn) (l : List Conn) :
    (broadcastPass env ex l).1 =
      l.filter (fun c =>
        decide (ex ≠ some c) && !env.isDisconnected c && !env.sendRaises c) := by
  induction l with
  | nil => rfl
  | cons ws rest ih =>
    by_cases h1 : ex = some ws
    · subst h1
      simp [broadcastPass, List.filter_cons, ih]
    · by_cases h2 : env.isDisconnected ws
      · simp [broadcastPass, List.filter_cons, h1, h2, ih]
      · by_cases h3 : env.sendRaises ws
        · simp [broadcastPass, List.filter_cons, h1, h2, h3, ih]
        · simp [broadcastPass, List.filter_cons, h1, h2, h3, ih]

theorem broadcastPass_snd_eq (env : NetEnv) (ex : Option Conn) (l : List Conn) :
    (broadcastPass env ex l).2 =
      l.filter (fun c =>
        decide (ex ≠ some c) && (env.isDisconnected c || env.sendRaises c)) := by
  induction l with
  | nil => rfl
  | cons ws rest ih =>
    by_cases h1 : ex = some ws
    · subst h1
      simp [broadcastPass, List.filter_cons, ih]
    · by_cases h2 : env.isDisconnected ws
      · simp [broadcastPass, List.filter_cons, h1, h2, ih]
      · by_cases h3 : env.sendRaises ws
        · simp [broadcastPass, List.filter_cons, h1, h2, h3, ih]
        · simp [broadcastPass, List.filter_cons, h1, h2, h3, ih]

theorem mem_broadcastPass_snd {env : NetEnv} {ex : Option Conn} {l : List Conn}
    {c : Conn} :
    c ∈ (broadcastPass env ex l).2 ↔
      c ∈ l ∧ ex ≠ some c ∧
        (env.isDisconnected c = true ∨ env.sendRaises c = true) := by
  rw [broadcastPass_snd_eq]
  simp [List.mem_filter, and_assoc]

theorem subsOf_broadcast_self {μ : Type} (env : NetEnv) (ts : Topics)
    (topic : String) (msg : μ) (ex : Option Conn) :
    subsOf (broadcast env ts topic msg ex).1 topic =
      (subsOf ts topic).filter
        (fun c => decide (c ∉ (broadcastPass env ex (subsOf ts topic)).2)) := by
  unfold broadcast
  simp only [subsOf_setSubs_self, subsOf_ensure_topic]

theorem subsOf_broadcast_ne {μ : Type} (env : NetEnv) (ts : Topics)
    (topic topic2 : String) (msg : μ) (ex : Option Conn) (h : topic2 ≠ topic) :
    subsOf (broadcast env ts topic msg ex).1 topic2 = subsOf ts topic2 := by
  unfold broadcast
  simp only [subsOf_setSubs_ne _ _ _ _ h, subsOf_ensure_topic]

theorem mem_broadcast_snd {μ : Type} {env : NetEnv} {ts : Topics}
    {topic : String} {msg : μ} {ex : Option Conn} {c : Conn} {m : μ} :
    (c, m) ∈ (broadcast env ts topic msg ex).2 ↔
      m = msg ∧ c ∈ subsOf ts topic ∧ ex ≠ some c ∧
        env.isDisconnected c = false ∧ env.sendRaises c = false := by
  unfold broadcast
  simp only [List.mem_map, broadcastPass_fst_eq, List.mem_filter,
    subsOf_ensure_topic, Prod.mk.injEq]
  constructor
  · rintro ⟨a, ⟨hmem, hcond⟩, rfl, rfl⟩
    simp only [Bool.and_eq_true, Bool.not_eq_true', decide_eq_true_eq] at hcond
    exact ⟨rfl, hmem, hcond.1.1, hcond.1.2, hcond.2⟩
  · rintro ⟨rfl, hmem, hex, hdis, hsr⟩
    exact ⟨c, ⟨hmem, by simp [hex, hdis, hsr]⟩, rfl, rfl⟩

theorem mem_subsOf_of_mem_broadcast_snd {μ : Type} {env : NetEnv} {ts : Topics}
    {topic : String} {msg : μ} {ex : Option Conn} {c : Conn} {m : μ}
    (h : (c, m) ∈ (broadcast env ts topic msg ex).2) : c ∈ subsOf ts topic :=
  (mem_broadcast_snd.mp h).2.1

/-! Repeated connect and disconnect calls, for the membership accounting
property. -/

/-- A sequence of connect calls for the given connections to one topic. -/
def connectAll (ts : Topics) (topic : String) (cs : List Conn) : Topics :=
  cs.foldl (fun a c => connect a topic c) ts

/-- A sequence of disconnect calls for the given connections from one topic. -/
def disconnectAll (ts : Topics) (topic : String) (cs : List Conn) : Topics :=
  cs.foldl (fun a c => disconnect a topic c) ts

theorem subsOf_connectAll (topic : String) :
    ∀ (cs : List Conn) (ts : Topics), cs.Nodup →
      (∀ c ∈ cs, c ∉ subsOf ts topic) →
      subsOf (connectAll ts topic cs) topic = subsOf ts topic ++ cs := by
  intro cs
  induction cs with
  | nil =>
    intro ts _ _
    simp [connectAll]
  | cons c cs ih =>
    intro ts hnd hfresh
    have hc : c ∉ subsOf ts topic := hfresh c (List.mem_cons_self c cs)
    have h1 : subsOf (connect ts topic c) topic = subsOf ts topic ++ [c] := by
      rw [subsOf_connect_self, addConn_eq_append hc]
    have hnd2 := List.nodup_cons.mp hnd
    have hfresh2 : ∀ x ∈ cs, x ∉ subsOf (connect ts topic c) topic := by
      intro x hx
      rw [h1]
      simp only [List.mem_append, List.mem_singleton]
      rintro (hmem | rfl)
      · exact hfresh x (List.mem_cons_of_mem c hx) hmem
      · exact hnd2.1 hx
    calc subsOf (connectAll ts topic (c :: cs)) topic
        = subsOf (connectAll (connect ts topic c) topic cs) topic := rfl
      _ = subsOf (connect ts topic c) topic ++ cs := ih _ hnd2.2 hfresh2
      _ = (subsOf ts topic ++ [c]) ++ cs := by rw [h1]
      _ = subsOf ts topic ++ c :: cs := by simp

theorem subsOf_disconnectAll (topic : String) :
    ∀ (ks : List Conn) (ts : Topics),
      subsOf (disconnectAll ts topic ks) topic =
        (subsOf ts topic).filter (fun x => decide (x ∉ ks)) := by
  intro ks
  induction ks with
  | nil =>
    intro ts
    simp [disconnectAll]
  | cons k ks ih =>
    intro ts
    calc subsOf (disconnectAll ts topic (k :: ks)) topic
        = subsOf (disconnectAll (disconnect ts topic k) topic ks) topic := rfl
      _ = (subsOf (disconnect ts topic k) topic).filter
            (fun x => decide (x ∉ ks)) := ih _
      _ = ((subsOf ts topic).filter (fun x => decide (x ≠ k))).filter
            (fun x => decide (x ∉ ks)) := by rw [subsOf_disconnect_self]
      _ = (subsOf ts topic).filter (fun x => decide (x ∉ k :: ks)) := by
            rw [List.filter_filter]
            apply List.filter_congr
            intro x _
            by_cases h1 : x = k <;> by_cases h2 : x ∈ ks <;> simp [h1, h2]

theorem length_filter_not_mem :
    ∀ (ks cs : List Conn), ks.Nodup → cs.Nodup → (∀ k ∈ ks, k ∈ cs) →
      (cs.filter (fun x => decide (x ∉ ks))).length = cs.length - ks.length := by
  intro ks
  induction ks with
  | nil =>
    intro cs _ _ _
    simp
  | cons k ks ih =>
    intro cs hks hcs hsub
    have hkcs : k ∈ cs := hsub k (List.mem_cons_self k ks)
    have hnd := List.nodup_cons.mp hks
    have hsplit : cs.filter (fun x => decide (x ∉ k :: ks)) =
        (cs.filter (fun x => decide (x ≠ k))).filter
          (fun x => decide (x ∉ ks)) := by
      rw [List.filter_filter]
      apply List.filter_congr
      intro x _
      by_cases h1 : x = k <;> by_cases h2 : x ∈ ks <;> simp [h1, h2]
    have herase : cs.filter (fun x => decide (x ≠ k)) = cs.erase k := by
      rw [List.Nodup.erase_eq_filter hcs]
      apply List.filter_congr
      intro x _
      by_cases h1 : x = k <;> simp [h1]
    have hlen : (cs.erase k).length = cs.length - 1 :=
      List.length_erase_of_mem hkcs
    have hsub2 : ∀ x ∈ ks, x ∈ cs.erase k := by
      intro x hx
      have hxk : x ≠ k := fun hh => hnd.1 (hh ▸ hx)
      exact (List.mem_erase_of_ne hxk).mpr (hsub x (List.mem_cons_of_mem k hx))
    calc (cs.filter (fun x => decide (x ∉ k :: ks))).length
        = ((cs.erase k).filter (fun x => decide (x ∉ ks))).length := by
            rw [hsplit, herase]
      _ = (cs.erase k).length - ks.length := ih _ hnd.2 (hcs.erase k) hsub2
      _ = cs.length - 1 - ks.length := by rw [hlen]
      _ = cs.length - (k :: ks).length := by
            rw [Nat.sub_sub, List.length_cons, Nat.add_comm]

/-! System-level model for tenant isolation: the broadcast manager's state
together with, for each connection, the tenant its successful authentication
returned.  The transitions are exactly the manager calls the two handlers
perform. -/

structure SysState where
  topics : Topics
  auth : Conn → Option String

def SysState.init : SysState := ⟨[], fun _ => none⟩

/-- One transition of the realtime subsystem: ws_dashboard or ws_scheduler
admitting a connection (only after validate_ws_and_get_user accepted it, and
subscribing it exactly to the topic derived from the accepted tenant; each
connection attempt uses a fresh handle because the handler body runs once per
transport connection), a disconnect, or a broadcast. -/
inductive Step (decode : String → Option Claims) : SysState → SysState → Prop
  | dashboard (s : SysState) (c : Conn) (r : WsRequest) (t u : String)
      (hval : validate_ws_and_get_user decode r = .accept t u)
      (hnew : s.auth c = none) :
      Step decode s ⟨connect s.topics (dashboard_topic t) c,
        fun x => if x = c then some t else s.auth x⟩
  | scheduler (s : SysState) (c : Conn) (r : WsRequest) (t u : String)
      (hval : validate_ws_and_get_user decode r = .accept t u)
      (hnew : s.auth c = none) :
      Step decode s ⟨connect s.topics (scheduler_topic t r.board) c,
        fun x => if x = c then some t else s.auth x⟩
  | leave (s : SysState) (topic : String) (c : Conn) :
      Step decode s ⟨disconnect s.topics topic c, s.auth⟩
  | fanout (s : SysState) (env : NetEnv) (topic : String) (msg : PyDict)
      (ex : Option Conn) :
      Step decode s ⟨(broadcast env s.topics topic msg ex).1, s.auth⟩

/-- States reachable from process start by handler transitions. -/
inductive Reachable (decode : String → Option Claims) : SysState → Prop
  | init : Reachable decode SysState.init
  | step {s s2 : SysState} : Reachable decode s → Step decode s s2 →
      Reachable decode s2

/-- The topic strings keyed by tenant t: its dashboard topic and its
scheduler topics for every optional board. -/
def topicOfTenant (t : String) (topic : String) : Prop :=
  topic = dashboard_topic t ∨ ∃ b : Option String, topic = scheduler_topic t b

/-- Invariant: every subscribed connection sits only in topics derived from
the tenant its own authentication returned. -/
def authJoined (s : SysState) : Prop :=
  ∀ c topic, c ∈ subsOf s.topics topic →
    ∃ t, s.auth c = some t ∧ topicOfTenant t topic

theorem authJoined_init : authJoined SysState.init := by
  intro c topic h
  simp [SysState.init, subsOf] at h

theorem authJoined_connectStep {s : SysState} (hinv : authJoined s) (c : Conn)
    (t T : String) (hT : topicOfTenant t T) (hnew : s.auth c = none) :
    authJoined ⟨connect s.topics T c, fun x => if x = c then some t else s.auth x⟩ := by
  intro x topic hx
  by_cases htop : topic = T
  · subst htop
    rw [show subsOf (SysState.mk (connect s.topics topic c) _).topics topic
        = subsOf (connect s.topics topic c) topic from rfl,
      subsOf_connect_self] at hx
    rcases mem_addConn.mp hx with hx | rfl
    · obtain ⟨t2, ht2, htop2⟩ := hinv x _ hx
      have hxc : x ≠ c := by
        rintro rfl
        rw [hnew] at ht2
        cases ht2
      exact ⟨t2, by simp [hxc, ht2], htop2⟩
    · exact ⟨t, by simp, hT⟩
  · rw [show subsOf (SysState.mk (connect s.topics T c) _).topics topic
        = subsOf (connect s.topics T c) topic from rfl,
      subsOf_connect_ne _ _ _ _ htop] at hx
    obtain ⟨t2, ht2, htop2⟩ := hinv x _ hx
    have hxc : x ≠ c := by
      rintro rfl
      rw [hnew] at ht2
      cases ht2
    exact ⟨t2, by simp [hxc, ht2], htop2⟩

theorem authJoined_step {decode : String → Option Claims} {s s2 : SysState}
    (h : Step decode s s2) (hinv : authJoined s) : authJoined s2 := by
  cases h with
  | dashboard c r t u hval hnew =>
    exact authJoined_connectStep hinv c t _ (Or.inl rfl) hnew
  | scheduler c r t u hval hnew =>
    exact authJoined_connectStep hinv c t _ (Or.inr ⟨r.board, rfl⟩) hnew
  | leave topic c =>
    intro x top hx
    by_cases htop : top = topic
    · subst htop
      rw [show subsOf (SysState.mk (disconnect s.topics top c) s.auth).topics top
          = subsOf (disconnect s.topics top c) top from rfl,
        subsOf_disconnect_self] at hx
      exact hinv x top (List.mem_of_mem_filter hx)
    · rw [show subsOf (SysState.mk (disconnect s.topics topic c) s.auth).topics top
          = subsOf (disconnect s.topics topic c) top from rfl,
        subsOf_disconnect_ne _ _ _ _ htop] at hx
      exact hinv x top hx
  | fanout env topic msg ex =>
    intro x top hx
    by_cases htop : top = topic
    · subst htop
      rw [show subsOf (SysState.mk (broadcast env s.topics top msg ex).1 s.auth).topics top
          = subsOf (broadcast env s.topics top msg ex).1 top from rfl,
        subsOf_broadcast_self] at hx
      exact hinv x top (List.mem_of_mem_filter hx)
    · rw [show subsOf (SysState.mk (broadcast env s.topics topic msg ex).1 s.auth).topics top
          = subsOf (broadcast env s.topics topic msg ex).1 top from rfl,
        subsOf_broadcast_ne _ _ _ _ _ _ htop] at hx
      exact hinv x top hx

theorem authJoined_reachable {decode : String → Option Claims} {s : SysState}
    (h : Reachable decode s) : authJoined s := by
  induction h with
  | init => exact authJoined_init
  | step hr hs ih => exact authJoined_step hs ih

/-! Topic strings determine the tenant, provided tenant identifiers contain no
colon (the topic key separator); the spec fixes tenant identifiers to be
UUID-formatted strings, which are colon-free. -/

theorem scheduler_topic_eq_base (t : String) (b : Option String)
    (hb : pyTruthy b = false) : scheduler_topic t b = "scheduler:" ++ t := by
  unfold scheduler_topic
  rw [hb]
  simp

theorem scheduler_topic_eq_board (t b2 : String) (hb : b2 ≠ "") :
    scheduler_topic t (some b2) = "scheduler:" ++ t ++ ":" ++ b2 := by
  unfold scheduler_topic
  have ht : pyTruthy (some b2) = true := by simp [pyTruthy, hb]
  rw [ht]
  simp

theorem data_dashboard_topic (t : String) :
    (dashboard_topic t).data = "dashboard".data ++ ':' :: t.data := by
  show ("dashboard:" ++ t).data = _
  rw [String.data_append]
  rw [show ("dashboard:" : String).data = "dashboard".data ++ [':'] from by decide]
  simp

theorem data_scheduler_base (t : String) (b : Option String)
    (hb : pyTruthy b = false) :
    (scheduler_topic t b).data = "scheduler".data ++ ':' :: t.data := by
  rw [scheduler_topic_eq_base t b hb, String.data_append]
  rw [show ("scheduler:" : String).data = "scheduler".data ++ [':'] from by decide]
  simp

theorem data_scheduler_board (t b2 : String) (hb : b2 ≠ "") :
    (scheduler_topic t (some b2)).data =
      "scheduler".data ++ ':' :: (t.data ++ ':' :: b2.data) := by
  rw [scheduler_topic_eq_board t b2 hb]
  rw [String.data_append, String.data_append, String.data_append]
  rw [show ("scheduler:" : String).data = "scheduler".data ++ [':'] from by decide]
  rw [show (":" : String).data = [':'] from by decide]
  simp

theorem scheduler_topic_data_cases (t : String) (b : Option String) :
    (scheduler_topic t b).data = "scheduler".data ++ ':' :: t.data ∨
    ∃ b2 : String, (scheduler_topic t b).data =
      "scheduler".data ++ ':' :: (t.data ++ ':' :: b2.data) := by
  by_cases hb : pyTruthy b = true
  · cases b with
    | none => simp [pyTruthy] at hb
    | some b2 =>
      right
      exact ⟨b2, data_scheduler_board t b2 (by simpa [pyTruthy] using hb)⟩
  · left
    exact data_scheduler_base t b (by simpa using hb)

theorem colon_split : ∀ (a b x y : List Char), ':' ∉ a → ':' ∉ b →
    a ++ ':' :: x = b ++ ':' :: y → a = b ∧ x = y := by
  intro a
  induction a with
  | nil =>
    intro b x y _ hb h
    cases b with
    | nil =>
      simp only [List.nil_append, List.cons.injEq] at h
      exact ⟨rfl, h.2⟩
    | cons d bs =>
      simp only [List.nil_append, List.cons_append, List.cons.injEq] at h
      have hd : ':' ∈ d :: bs := by
        rw [h.1]
        exact List.mem_cons_self d bs
      exact absurd hd hb
  | cons c as ih =>
    intro b x y ha hb h
    cases b with
    | nil =>
      simp only [List.cons_append, List.nil_append, List.cons.injEq] at h
      have hc : ':' ∈ c :: as := by
        rw [← h.1]
        exact List.mem_cons_self c as
      exact absurd hc ha
    | cons d bs =>
      simp only [List.cons_append, List.cons.injEq] at h
      have ha2 : ':' ∉ as := fun hm => ha (List.mem_cons_of_mem c hm)
      have hb2 : ':' ∉ bs := fun hm => hb (List.mem_cons_of_mem d hm)
      obtain ⟨h1, h2⟩ := ih bs x y ha2 hb2 h.2
      constructor
      · rw [h.1, h1]
      · exact h2

theorem tenant_eq_of_topicOfTenant {A B T : String}
    (hA : ':' ∉ A.data) (hB : ':' ∉ B.data)
    (h1 : topicOfTenant A T) (h2 : topicOfTenant B T) : A = B := by
  have hdash : (':' : Char) ∉ ("dashboard" : String).data := by decide
  have hsched : (':' : Char) ∉ ("scheduler" : String).data := by decide
  rcases h1 with h1 | ⟨b1, h1⟩ <;> rcases h2 with h2 | ⟨b2, h2⟩
  · have he : (dashboard_topic A).data = (dashboard_topic B).data := by
      rw [← h1, ← h2]
    rw [data_dashboard_topic, data_dashboard_topic] at he
    exact String.ext (colon_split _ _ _ _ hdash hdash he).2
  · have he : (dashboard_topic A).data = (scheduler_topic B b2).data := by
      rw [← h1, ← h2]
    rcases scheduler_topic_data_cases B b2 with hc | ⟨bb, hc⟩ <;>
      rw [data_dashboard_topic, hc] at he <;>
      exact absurd (colon_split _ _ _ _ hdash hsched he).1 (by decide)
  · have he : (scheduler_topic A b1).data = (dashboard_topic B).data := by
      rw [← h1, ← h2]
    rcases scheduler_topic_data_cases A b1 with hc | ⟨ba, hc⟩ <;>
      rw [data_dashboard_topic, hc] at he <;>
      exact absurd (colon_split _ _ _ _ hsched hdash he).1 (by decide)
  · have he : (scheduler_topic A b1).data = (scheduler_topic B b2).data := by
      rw [← h1, ← h2]
    rcases scheduler_topic_data_cases A b1 with hcA | ⟨ba, hcA⟩ <;>
      rcases scheduler_topic_data_cases B b2 with hcB | ⟨bb, hcB⟩ <;>
      rw [hcA, hcB] at he
    · exact String.ext (colon_split _ _ _ _ hsched hsched he).2
    · have hmem : ':' ∈ A.data := by
        rw [(colon_split _ _ _ _ hsched hsched he).2]
        simp
      exact absurd hmem hA
    · have hmem : ':' ∈ B.data := by
        rw [← (colon_split _ _ _ _ hsched hsched he).2]
        simp
      exact absurd hmem hB
    · have hmid := (colon_split _ _ _ _ hsched hsched he).2
      exact String.ext (colon_split _ _ _ _ hA hB hmid).1

/-! The claims. -/

/-- C2: on every use of the tenant context, after the context exits — whether
the enclosed work returned normally or raised — the session's app.tenant_id
setting is the empty string, and the empty string satisfies the
row-level-security policy of no tenant (tenant identifiers are nonempty). -/
theorem tenant_context_resets {E A : Type} (tenant_id : String)
    (body : Session → Session × Except E A) (s : Session) :
    (tenant_context tenant_id body s).1.tenant_guc = "" ∧
    (∀ t : String, t ≠ "" → policyAllows "" t = false) := by
  constructor
  · rfl
  · intro t ht
    simp only [policyAllows, decide_eq_false_iff_not]
    exact fun hh => ht hh.symm

/-- Witness for C2 at a concrete session with a raising body. -/
theorem tenant_context_resets_witness :
    (tenant_context "tenant-a"
        (fun s2 => (s2, (Except.error () : Except Unit Unit))) ⟨"stale"⟩).1.tenant_guc
      = "" ∧
    policyAllows "" "tenant-a" = false :=
  ⟨(tenant_context_resets "tenant-a"
      (fun s2 => (s2, (Except.error () : Except Unit Unit))) ⟨"stale"⟩).1,
   (tenant_context_resets "tenant-a"
      (fun s2 => (s2, (Except.error () : Except Unit Unit))) ⟨"stale"⟩).2
      "tenant-a" (by decide)⟩

/-- C3: rejection codes and non-admission of the WebSocket authentication:
falsy token or falsy tenant header gives 4401; a token that fails to decode
gives 4401; a decoded token whose stringified tenant claim differs from the
declared header gives 4403; a matching token with falsy subject gives 4401;
otherwise the (tenant_id, user_id) pair is returned; and every rejection
leaves both handlers without any topic subscription. -/
theorem ws_auth_cases (decode : String → Option Claims) (r : WsRequest) :
    ((r.token = none ∨ r.token = some "" ∨ r.tenantHeader = none ∨
        r.tenantHeader = some "") →
      validate_ws_and_get_user decode r = .reject 4401) ∧
    (∀ tok hdr, r.token = some tok → r.tenantHeader = some hdr → tok ≠ "" →
      hdr ≠ "" → decode tok = none →
      validate_ws_and_get_user decode r = .reject 4401) ∧
    (∀ tok hdr claims, r.token = some tok → r.tenantHeader = some hdr →
      tok ≠ "" → hdr ≠ "" → decode tok = some claims →
      pyStr claims.tenant_id ≠ hdr →
      validate_ws_and_get_user decode r = .reject 4403) ∧
    (∀ tok hdr claims, r.token = some tok → r.tenantHeader = some hdr →
      tok ≠ "" → hdr ≠ "" → decode tok = some claims →
      pyStr claims.tenant_id = hdr → pyTruthy claims.sub = false →
      validate_ws_and_get_user decode r = .reject 4401) ∧
    (∀ tok hdr claims, r.token = some tok → r.tenantHeader = some hdr →
      tok ≠ "" → hdr ≠ "" → decode tok = some claims →
      pyStr claims.tenant_id = hdr → pyTruthy claims.sub = true →
      validate_ws_and_get_user decode r = .accept hdr (pyStr claims.sub)) ∧
    (∀ code, validate_ws_and_get_user decode r = .reject code →
      dashboardJoinTopic decode r = none ∧ schedulerJoinTopic decode r = none) := by
  obtain ⟨tk, th, bd⟩ := r
  refine ⟨?_, ?_, ?_, ?_, ?_, ?_⟩
  · rintro (rfl | rfl | rfl | rfl)
    · cases th <;> simp [validate_ws_and_get_user]
    · cases th <;> simp [validate_ws_and_get_user]
    · cases tk <;> simp [validate_ws_and_get_user]
    · cases tk <;> simp [validate_ws_and_get_user]
  · rintro tok hdr rfl rfl h1 h2 hdec
    simp [validate_ws_and_get_user, h1, h2, hdec]
  · rintro tok hdr claims rfl rfl h1 h2 hdec hne
    simp [validate_ws_and_get_user, h1, h2, hdec, hne]
  · rintro tok hdr claims rfl rfl h1 h2 hdec heq hsub
    simp [validate_ws_and_get_user, h1, h2, hdec, heq, hsub]
  · rintro tok hdr claims rfl rfl h1 h2 hdec heq hsub
    simp [validate_ws_and_get_user, h1, h2, hdec, heq, hsub]
  · intro code hrej
    constructor <;> simp [dashboardJoinTopic, schedulerJoinTopic, hrej]

/-- Witness for C3: the missing-credential, tenant-mismatch, success and
non-admission cases at concrete inputs. -/
theorem ws_auth_cases_witness :
    validate_ws_and_get_user (fun _ => some ⟨some "tenA", some "u1"⟩)
      ⟨none, some "tenA", none⟩ = .reject 4401 ∧
    validate_ws_and_get_user (fun _ => some ⟨some "tenA", some "u1"⟩)
      ⟨some "tok", some "tenB", none⟩ = .reject 4403 ∧
    validate_ws_and_get_user (fun _ => some ⟨some "tenA", some "u1"⟩)
      ⟨some "tok", some "tenA", none⟩ = .accept "tenA" "u1" ∧
    dashboardJoinTopic (fun _ => some ⟨some "tenA", some "u1"⟩)
      ⟨none, some "tenA", none⟩ = none := by
  refine ⟨?_, ?_, ?_, ?_⟩
  · exact (ws_auth_cases (fun _ => some ⟨some "tenA", some "u1"⟩)
      ⟨none, some "tenA", none⟩).1 (Or.inl rfl)
  · exact (ws_auth_cases (fun _ => some ⟨some "tenA", some "u1"⟩)
      ⟨some "tok", some "tenB", none⟩).2.2.1 "tok" "tenB" ⟨some "tenA", some "u1"⟩
      rfl rfl (by decide) (by decide) rfl (by decide)
  · exact (ws_auth_cases (fun _ => some ⟨some "tenA", some "u1"⟩)
      ⟨some "tok", some "tenA", none⟩).2.2.2.2.1 "tok" "tenA" ⟨some "tenA", some "u1"⟩
      rfl rfl (by decide) (by decide) rfl (by decide) (by decide)
  · exact ((ws_auth_cases (fun _ => some ⟨some "tenA", some "u1"⟩)
      ⟨none, some "tenA", none⟩).2.2.2.2.2 4401
      ((ws_auth_cases (fun _ => some ⟨some "tenA", some "u1"⟩)
        ⟨none, some "tenA", none⟩).1 (Or.inl rfl))).1

/-- C4: for every call of broadcast with an excluded connection, that
connection is never delivered the message by that call, member of the topic
or not. -/
theorem broadcast_never_delivers_excluded {μ : Type} (env : NetEnv)
    (ts : Topics) (topic : String) (msg : μ) (c : Conn) (m : μ) :
    (c, m) ∉ (broadcast env ts topic msg (some c)).2 := by
  intro h
  exact (mem_broadcast_snd.mp h).2.2.1 rfl

/-- Witness for C4: the excluded member of a concrete topic gets nothing. -/
theorem broadcast_never_delivers_excluded_witness :
    ((0 : Conn), ([] : PyDict)) ∉
      (broadcast ⟨fun _ => false, fun _ => false⟩ [("dashboard:tA", [0, 1])]
        "dashboard:tA" ([] : PyDict) (some 0)).2 :=
  broadcast_never_delivers_excluded ⟨fun _ => false, fun _ => false⟩
    [("dashboard:tA", [0, 1])] "dashboard:tA" [] 0 []

/-- C8: during any broadcast, every non-excluded subscriber whose liveness
check reports disconnected or whose delivery raises is removed from the
topic's membership by that same call, delivery to the remaining live
subscribers still happens, and the pruned subscriber receives nothing from
any subsequent broadcast to the topic. -/
theorem broadcast_pruning {μ μ2 : Type} (env : NetEnv) (ts : Topics)
    (topic : String) (msg : μ) (ex : Option Conn) (c : Conn)
    (hmem : c ∈ subsOf ts topic) (hex : ex ≠ some c)
    (hbad : env.isDisconnected c = true ∨ env.sendRaises c = true) :
    c ∉ subsOf (broadcast env ts topic msg ex).1 topic ∧
    (∀ c2, c2 ∈ subsOf ts topic → ex ≠ some c2 →
      env.isDisconnected c2 = false → env.sendRaises c2 = false →
      (c2, msg) ∈ (broadcast env ts topic msg ex).2) ∧
    (∀ (env2 : NetEnv) (msg2 : μ2) (ex2 : Option Conn) (m : μ2),
      (c, m) ∉ (broadcast env2 (broadcast env ts topic msg ex).1 topic msg2 ex2).2) := by
  have hdrop : c ∈ (broadcastPass env ex (subsOf ts topic)).2 :=
    mem_broadcastPass_snd.mpr ⟨hmem, hex, hbad⟩
  have hnotin : c ∉ subsOf (broadcast env ts topic msg ex).1 topic := by
    rw [subsOf_broadcast_self]
    intro hmm
    have h2 := List.mem_filter.mp hmm
    simp only [decide_eq_true_eq] at h2
    exact h2.2 hdrop
  refine ⟨hnotin, ?_, ?_⟩
  · intro c2 h1 h2 h3 h4
    exact mem_broadcast_snd.mpr ⟨rfl, h1, h2, h3, h4⟩
  · intro env2 msg2 ex2 m hmm
    exact hnotin (mem_subsOf_of_mem_broadcast_snd hmm)

/-- Witness for C8: a disconnected subscriber of a concrete topic is pruned
while its live topic-mate is still delivered. -/
theorem broadcast_pruning_witness :
    (0 : Conn) ∉ subsOf (broadcast ⟨fun c => c == 0, fun _ => false⟩
      [("t", [0, 1])] "t" ([] : PyDict) none).1 "t" ∧
    ((1 : Conn), ([] : PyDict)) ∈ (broadcast ⟨fun c => c == 0, fun _ => false⟩
      [("t", [0, 1])] "t" ([] : PyDict) none).2 := by
  have h := @broadcast_pruning PyDict PyDict ⟨fun c => c == 0, fun _ => false⟩
    [("t", [0, 1])] "t" [] none 0 (by decide) (by decide) (Or.inl rfl)
  exact ⟨h.1, h.2.1 1 (by decide) (by decide) rfl rfl⟩

/-- C9: membership accounting: connecting N distinct fresh connections to a
topic gives subscriber count N; then disconnecting any duplicate-free subset
of k of them gives count N - k; and disconnect of an absent connection or
topic is the identity and never errors. -/
theorem membership_accounting (topic : String) (ts : Topics)
    (cs ks : List Conn) (h0 : subsOf ts topic = []) (hcs : cs.Nodup)
    (hks : ks.Nodup) (hsub : ∀ k ∈ ks, k ∈ cs) :
    (subsOf (connectAll ts topic cs) topic).length = cs.length ∧
    (subsOf (disconnectAll (connectAll ts topic cs) topic ks) topic).length =
      cs.length - ks.length ∧
    (∀ (ts2 : Topics) (c : Conn), c ∉ subsOf ts2 topic →
      disconnect ts2 topic c = ts2) := by
  have hfresh : ∀ c ∈ cs, c ∉ subsOf ts topic := by
    intro c _
    rw [h0]
    simp
  have hconn : subsOf (connectAll ts topic cs) topic = cs := by
    rw [subsOf_connectAll topic cs ts hcs hfresh, h0, List.nil_append]
  refine ⟨by rw [hconn], ?_, ?_⟩
  · rw [subsOf_disconnectAll, hconn, length_filter_not_mem ks cs hks hcs hsub]
  · intro ts2 c hc
    exact disconnect_eq_self hc

/-- Witness for C9: three fresh connections, then two disconnects, on a
concrete topic; disconnect of an absent connection is the identity. -/
theorem membership_accounting_witness :
    (subsOf (connectAll [] "t" [0, 1, 2]) "t").length = 3 ∧
    (subsOf (disconnectAll (connectAll [] "t" [0, 1, 2]) "t" [2, 0]) "t").length = 1 ∧
    disconnect [("t", [5])] "t" 7 = [("t", [5])] := by
  have h := membership_accounting "t" [] [0, 1, 2] [2, 0] rfl
    (by decide) (by decide) (by decide)
  exact ⟨h.1, h.2.1, h.2.2 [("t", [5])] 7 (by decide)⟩

/-- C1 (amended: for tenant identifiers containing no colon, as the
UUID-formatted tenant identifiers of the spec are): in every reachable state,
a connection authenticated for tenant A is not a member of any topic keyed by
a different tenant B, receives nothing from a broadcast to such a topic, and
in general every topic any connection sits in is derived from the tenant its
own successful authentication returned. -/
theorem tenant_isolation (decode : String → Option Claims) (s : SysState)
    (hs : Reachable decode s) (c : Conn) (A B : String)
    (hauth : s.auth c = some A) (hA : ':' ∉ A.data) (hB : ':' ∉ B.data)
    (hAB : A ≠ B) (T : String) (hT : topicOfTenant B T) :
    c ∉ subsOf s.topics T ∧
    (∀ (env : NetEnv) (msg : PyDict) (ex : Option Conn) (m : PyDict),
      (c, m) ∉ (broadcast env s.topics T msg ex).2) ∧
    (∀ (x : Conn) (T2 : String), x ∈ subsOf s.topics T2 →
      ∃ t, s.auth x = some t ∧ topicOfTenant t T2) := by
  have hinv := authJoined_reachable hs
  have hnot : c ∉ subsOf s.topics T := by
    intro hmm
    obtain ⟨t, ht, htop⟩ := hinv c T hmm
    rw [hauth] at ht
    have htA : t = A := by
      injection ht with h2
      exact h2.symm
    subst htA
    exact hAB (tenant_eq_of_topicOfTenant hA hB htop hT)
  refine ⟨hnot, ?_, hinv⟩
  intro env msg ex m hmm
  exact hnot (mem_subsOf_of_mem_broadcast_snd hmm)

/-- Token decoder of the C1 witness scenario. -/
def decodeC1 : String → Option Claims := fun _ => some ⟨some "aaaa", some "u1"⟩

/-- State of the C1 witness scenario: one dashboard connection admitted for
tenant aaaa. -/
def stateC1 : SysState :=
  ⟨connect [] (dashboard_topic "aaaa") 0, fun x => if x = 0 then some "aaaa" else none⟩

theorem stateC1_reachable : Reachable decodeC1 stateC1 :=
  Reachable.step Reachable.init
    (Step.dashboard SysState.init 0 ⟨some "tok", some "aaaa", none⟩ "aaaa" "u1"
      (by decide) rfl)

/-- Witness for C1: the admitted tenant-aaaa connection is absent from tenant
bbbb's dashboard topic. -/
theorem tenant_isolation_witness :
    (0 : Conn) ∉ subsOf stateC1.topics (dashboard_topic "bbbb") :=
  (tenant_isolation decodeC1 stateC1 stateC1_reachable 0 "aaaa" "bbbb" rfl
    (by decide) (by decide) (by decide) (dashboard_topic "bbbb") (Or.inl rfl)).1

/-- Token decoder of the C1 counterexample scenario. -/
def decodeCx : String → Option Claims := fun _ => some ⟨some "t", some "u"⟩

/-- State of the C1 counterexample scenario: one scheduler connection
admitted for tenant t with board x:y. -/
def stateCx : SysState :=
  ⟨connect [] (scheduler_topic "t" (some "x:y")) 0,
    fun x => if x = 0 then some "t" else none⟩

theorem stateCx_reachable : Reachable decodeCx stateCx :=
  Reachable.step Reachable.init
    (Step.scheduler SysState.init 0 ⟨some "tok", some "t", some "x:y"⟩ "t" "u"
      (by decide) rfl)

/-- C1 counterexample over unrestricted tenant strings: the connection
authenticated for tenant t, on board x:y, sits in the very topic string that
is keyed by the different tenant t:x with board y, and receives a broadcast
addressed to that topic — the claim without a colon-free restriction on
tenant identifiers is false. -/
theorem tenant_isolation_cx :
    Reachable decodeCx stateCx ∧
    stateCx.auth 0 = some "t" ∧
    ("t" : String) ≠ "t:x" ∧
    "scheduler:t:x:y" = scheduler_topic "t:x" (some "y") ∧
    0 ∈ subsOf stateCx.topics "scheduler:t:x:y" ∧
    ((0 : Conn), ([] : PyDict)) ∈
      (broadcast ⟨fun _ => false, fun _ => false⟩ stateCx.topics
        "scheduler:t:x:y" ([] : PyDict) none).2 := by
  refine ⟨stateCx_reachable, rfl, by decide, by decide, by decide, by decide⟩

/-- C5: a scheduler message with string type t other than ping is turned into
exactly one rebroadcast of the envelope with type scheduler.t, the payload
(the sent payload, or the empty object when absent) and the board as channel;
every other live subscriber of the topic is delivered exactly that envelope,
the sender is not, and nothing is written to the database. -/
theorem scheduler_roundtrip (board : Option String) (d : SchedData)
    (t : String) (ts : Topics) (env : NetEnv) (sender : Conn) (T : String)
    (hty : d.type = some (.str t)) (hne : t ≠ "ping") :
    schedulerHandleMsg board d =
      ⟨[], some ⟨"scheduler." ++ t, payloadOrEmpty d.payload, none, board⟩, []⟩ ∧
    (∀ p, d.payload = some p → payloadOrEmpty d.payload = p) ∧
    (d.payload = none → payloadOrEmpty d.payload = []) ∧
    (∀ c, c ∈ subsOf ts T → c ≠ sender →
      env.isDisconnected c = false → env.sendRaises c = false →
      (c, (⟨"scheduler." ++ t, payloadOrEmpty d.payload, none, board⟩ : WsEnvelope)) ∈
        (broadcast env ts T
          (⟨"scheduler." ++ t, payloadOrEmpty d.payload, none, board⟩ : WsEnvelope)
          (some sender)).2) ∧
    (∀ m : WsEnvelope, (sender, m) ∉
      (broadcast env ts T
        (⟨"scheduler." ++ t, payloadOrEmpty d.payload, none, board⟩ : WsEnvelope)
        (some sender)).2) ∧
    (schedulerHandleMsg board d).dbWrites = [] := by
  have h1 : schedulerHandleMsg board d =
      ⟨[], some ⟨"scheduler." ++ t, payloadOrEmpty d.payload, none, board⟩, []⟩ := by
    simp [schedulerHandleMsg, hty, hne]
  refine ⟨h1, ?_, ?_, ?_, ?_, by rw [h1]⟩
  · intro p hp
    rw [hp]
    unfold payloadOrEmpty
    by_cases hp2 : p = [] <;> simp [hp2]
  · intro hp
    rw [hp]
    rfl
  · intro c hc hcs h3 h4
    apply mem_broadcast_snd.mpr
    refine ⟨rfl, hc, ?_, h3, h4⟩
    intro hh
    exact hcs (Option.some.inj hh).symm
  · intro m hmm
    exact (mem_broadcast_snd.mp hmm).2.2.1 rfl

/-- Witness for C5: an operation.move message on board b1 is rebroadcast as
scheduler.operation.move with channel b1 to the other subscriber. -/
theorem scheduler_roundtrip_witness :
    schedulerHandleMsg (some "b1") ⟨some (.str "operation.move"), some [("k", "v")]⟩ =
      ⟨[], some ⟨"scheduler.operation.move", [("k", "v")], none, some "b1"⟩, []⟩ ∧
    ((7 : Conn), (⟨"scheduler.operation.move", [("k", "v")], none, some "b1"⟩ :
        WsEnvelope)) ∈
      (broadcast ⟨fun _ => false, fun _ => false⟩ [("s", [5, 7])] "s"
        (⟨"scheduler.operation.move", [("k", "v")], none, some "b1"⟩ : WsEnvelope)
        (some 5)).2 := by
  have h := scheduler_roundtrip (some "b1")
    ⟨some (.str "operation.move"), some [("k", "v")]⟩ "operation.move"
    [("s", [5, 7])] ⟨fun _ => false, fun _ => false⟩ 5 "s" rfl (by decide)
  exact ⟨h.1, h.2.2.2.1 7 (by decide) (by decide) rfl rfl⟩

/-- C6 (amended: a message whose type is absent or not a string is silently
dropped, the loop continues and the topic map is untouched; but a frame that
is not parsable JSON raises inside receive_json, which ends the loop through
the generic except clause, removing the connection from its topic and closing
the transport). -/
theorem scheduler_malformed (board : Option String) (d : SchedData) :
    ((d.type = none ∨ d.type = some .other) →
      schedulerLoopStep board (.msg d) = .continuing ⟨[], none, []⟩) ∧
    (∀ (ts : Topics) (topic : String) (c : Conn) (eff : StepEffects),
      schedulerOnEnd ts topic c (.continuing eff) = ts) ∧
    (schedulerLoopStep board .parseErr = .endError) ∧
    (∀ (ts : Topics) (topic : String) (c : Conn),
      schedulerOnEnd ts topic c .endError = disconnect ts topic c) := by
  refine ⟨?_, fun _ _ _ _ => rfl, rfl, fun _ _ _ => rfl⟩
  rintro (h | h) <;> simp [schedulerLoopStep, schedulerHandleMsg, h]

/-- Witness for C6: a message with absent type is dropped and the loop
continues. -/
theorem scheduler_malformed_witness :
    schedulerLoopStep none (.msg ⟨none, some [("a", "b")]⟩) =
      .continuing ⟨[], none, []⟩ :=
  (scheduler_malformed none ⟨none, some [("a", "b")]⟩).1 (Or.inl rfl)

/-- C6 counterexample: on an unparsable frame, receive_json raises and the
loop iteration ends through the generic except clause instead of continuing
with the message dropped; the connection is removed from its topic, so its
membership does not stay unchanged and the connection does not stay open. -/
theorem scheduler_malformed_cx :
    schedulerLoopStep none RecvResult.parseErr = LoopStep.endError ∧
    LoopStep.endError ≠ LoopStep.continuing ⟨[], none, []⟩ ∧
    schedulerOnEnd [("s", [4])] "s" 4 (schedulerLoopStep none RecvResult.parseErr) =
      [("s", [])] :=
  ⟨rfl, by decide, by decide⟩

/-- C7 (amended: on the dashboard endpoint a nonempty text frame that
case-insensitively equals ping elicits exactly the text reply pong with no
broadcast and no write; on the scheduler endpoint the keepalive trigger is a
parsed JSON message whose type field equals the string ping exactly, which
elicits pong with no broadcast and no write). -/
theorem ping_keepalive (s : String) (board : Option String) (d : SchedData) :
    (s ≠ "" → pyLower s = "ping" →
      dashboardHandleText s = ⟨[.text "pong"], none, []⟩) ∧
    (d.type = some (.str "ping") →
      schedulerLoopStep board (.msg d) = .continuing ⟨[.text "pong"], none, []⟩) := by
  constructor
  · intro h1 h2
    simp [dashboardHandleText, h1, h2]
  · intro h
    simp [schedulerLoopStep, schedulerHandleMsg, h]

/-- Witness for C7: mixed-case ping on the dashboard, and a JSON ping message
on the scheduler, both yield exactly pong and no broadcast. -/
theorem ping_keepalive_witness :
    dashboardHandleText "PiNg" = ⟨[.text "pong"], none, []⟩ ∧
    schedulerLoopStep (some "b") (.msg ⟨some (.str "ping"), none⟩) =
      .continuing ⟨[.text "pong"], none, []⟩ :=
  ⟨(ping_keepalive "PiNg" (some "b") ⟨some (.str "ping"), none⟩).1
      (by decide) (by decide),
   (ping_keepalive "PiNg" (some "b") ⟨some (.str "ping"), none⟩).2 rfl⟩

/-- C7 counterexample: on the scheduler endpoint the client sends frames
through receive_json; the literal text frame ping is not a JSON document, so
the receive raises and the iteration ends the connection through the generic
except clause — no pong is elicited, contradicting the claim for that
endpoint. -/
theorem ping_keepalive_cx :
    schedulerLoopStep none RecvResult.parseErr = LoopStep.endError ∧
    LoopStep.endError ≠ LoopStep.continuing ⟨[.text "pong"], none, []⟩ :=
  ⟨rfl, by decide⟩

/-- C10 (amended: a decodable unexpired token with no tenant_id claim is
rejected with 4403 for every declared nonempty X-Tenant-ID header other than
the literal string None, because the missing claim is stringified to None
before the comparison). -/
theorem missing_tenant_claim (decode : String → Option Claims) (r : WsRequest)
    (tok hdr : String) (claims : Claims)
    (htok : r.token = some tok) (hhdr : r.tenantHeader = some hdr)
    (h1 : tok ≠ "") (h2 : hdr ≠ "") (h3 : hdr ≠ "None")
    (hdec : decode tok = some claims) (hcl : claims.tenant_id = none) :
    validate_ws_and_get_user decode r = .reject 4403 := by
  obtain ⟨tk, th, bd⟩ := r
  cases htok
  cases hhdr
  have hne : pyStr claims.tenant_id ≠ hdr := by
    rw [hcl]
    exact fun hh => h3 hh.symm
  simp [validate_ws_and_get_user, h1, h2, hdec, hne]

/-- Witness for C10: a token with no tenant claim against the header tenA is
rejected 4403. -/
theorem missing_tenant_claim_witness :
    validate_ws_and_get_user (fun _ => some ⟨none, some "u"⟩)
      ⟨some "tok", some "tenA", none⟩ = .reject 4403 :=
  missing_tenant_claim (fun _ => some ⟨none, some "u"⟩)
    ⟨some "tok", some "tenA", none⟩ "tok" "tenA" ⟨none, some "u"⟩ rfl rfl
    (by decide) (by decide) (by decide) rfl rfl

/-- C10 counterexample: with declared header None, the stringified missing
claim equals the header, so the connection is not rejected 4403 — with a
nonempty subject it is accepted outright. -/
theorem missing_tenant_claim_cx :
    validate_ws_and_get_user (fun _ => some ⟨none, some "u"⟩)
      ⟨some "tok", some "None", none⟩ = .accept "None" "u" ∧
    AuthResult.accept "None" "u" ≠ AuthResult.reject 4403 :=
  ⟨by decide, by decide⟩

end MfgRealtime
